import Mathlib

/-!
Shallow embedding of the sysctl-style config parser and validator from
`src/task1/src/lib.rs` and `src/task2/src/lib.rs`.

Rust strings are modelled as lists of characters; `HashMap<String, _>` is
modelled as an association list without duplicate keys, with `insert`
replacing an existing binding in place.  The two tasks' parsers are embedded
separately (namespaces `Task1` and `Task2`) because one claim compares them.
-/

namespace Sysctl

/-- Characters of a Rust string, modelled as a list of characters. -/
abbrev Str := List Char

/-- Character list of a Lean string literal, used to write concrete inputs. -/
def chars (s : String) : Str := s.toList

/-- Whitespace test used by trimming.  Rust `str::trim` removes the Unicode
White_Space set at both ends; the inputs of this program are ASCII, so we
model the ASCII fragment: space, tab, line feed, vertical tab, form feed and
carriage return. -/
def isWs (c : Char) : Bool :=
  decide (c = ' ') || decide (c = '\t') || decide (c = '\n') ||
  decide (c = '\x0b') || decide (c = '\x0c') || decide (c = '\r')

/-- Rust `str::trim`: drop whitespace from both ends. -/
def trim (s : Str) : Str :=
  ((s.dropWhile isWs).reverse.dropWhile isWs).reverse

/-- Rust `str::contains(c)` for a single character. -/
def hasChar (c : Char) : Str → Bool
  | [] => false
  | x :: xs => decide (x = c) || hasChar c xs

/-- Rust `str::splitn(2, c)`: split on the first occurrence of character `c`.
`none` models the single-element result (`parts.len() != 2`), i.e. `c` does
not occur. -/
def splitOnceChar (c : Char) : Str → Option (Str × Str)
  | [] => none
  | x :: xs =>
    if x = c then some ([], xs)
    else
      match splitOnceChar c xs with
      | none => none
      | some (a, b) => some (x :: a, b)

/-- Rust `str::split(c)`: split on every occurrence of `c`; always yields at
least one (possibly empty) part. -/
def splitAllChar (c : Char) : Str → List Str
  | [] => [[]]
  | x :: xs =>
    match splitAllChar c xs with
    | [] => [[]]
    | a :: rest => if x = c then [] :: a :: rest else (x :: a) :: rest

/-- Rust `str::splitn(2, "->")`: split on the first occurrence of the
two-character separator `->`. -/
def splitOnceArrow : Str → Option (Str × Str)
  | '-' :: '>' :: ys => some ([], ys)
  | x :: xs =>
    match splitOnceArrow xs with
    | none => none
    | some (a, b) => some (x :: a, b)
  | [] => none

/-- Numeric value of a list of ASCII digits. -/
def digitsVal (s : Str) : Nat :=
  s.foldl (fun n c => 10 * n + (c.toNat - ('0').toNat)) 0

/-- Rust `str::parse::<i64>()`: optional sign, then one or more ASCII digits,
value within the signed 64-bit range; anything else is a parse error
(`none`). -/
def parseI64 (s : Str) : Option Int :=
  let p : Bool × Str :=
    match s with
    | '+' :: r => (false, r)
    | '-' :: r => (true, r)
    | _ => (false, s)
  if p.2 = [] then none
  else if p.2.all Char.isDigit then
    let n : Int := Int.ofNat (digitsVal p.2)
    let v : Int := if p.1 then -n else n
    if -(2 ^ 63) ≤ v ∧ v ≤ 2 ^ 63 - 1 then some v else none
  else none

/-- Drop one leading `+` or `-` sign. -/
def stripSign : Str → Str
  | '+' :: r => r
  | '-' :: r => r
  | s => s

/-- Case-insensitive match against `inf`, `infinity`, `nan` (Rust f64
special values). -/
def isInfNan (s : Str) : Bool :=
  let l := s.map Char.toLower
  decide (l = chars ("inf")) || decide (l = chars ("infinity")) ||
  decide (l = chars ("nan"))

/-- Exponent tail after `e`/`E`: optional sign then one or more digits. -/
def expTailOk (r : Str) : Bool :=
  let r2 := stripSign r
  decide (r2 ≠ []) && r2.all Char.isDigit

/-- What may follow the mantissa: nothing, or an exponent part. -/
def afterMantissaOk : Str → Bool
  | [] => true
  | c :: t => (decide (c = 'e') || decide (c = 'E')) && expTailOk t

/-- Decimal-number part of the Rust f64 grammar:
`(Digit+ | Digit+ '.' Digit* | '.' Digit+) Exp?`. -/
def isF64Number (s : Str) : Bool :=
  let d1 := s.takeWhile Char.isDigit
  let r1 := s.dropWhile Char.isDigit
  match r1 with
  | '.' :: r2 =>
    let d2 := r2.takeWhile Char.isDigit
    let r3 := r2.dropWhile Char.isDigit
    (decide (d1 ≠ []) || decide (d2 ≠ [])) && afterMantissaOk r3
  | _ => decide (d1 ≠ []) && afterMantissaOk r1

/-- Rust `str::parse::<f64>()` success test.  Only well-formedness matters to
the program (`is_err`), never the numeric value, so the embedding checks the
documented `FromStr` grammar for `f64`: optional sign, then `inf`,
`infinity`, `nan` (case-insensitive) or a decimal number with optional
exponent.  f64 parsing never fails on range, so no range check occurs. -/
def isF64 (s : Str) : Bool :=
  let b := stripSign s
  isInfNan b || isF64Number b

mutual
/-- `SysctlConfigValue` from the source: a leaf string or a nested config. -/
inductive SysctlConfigValue : Type where
  | str : Str → SysctlConfigValue
  | config : SysctlConfig → SysctlConfigValue

/-- `SysctlConfig = HashMap<String, SysctlConfigValue>`, modelled as an
association list; `mapInsert` replaces an existing binding in place. -/
inductive SysctlConfig : Type where
  | nil : SysctlConfig
  | cons : Str → SysctlConfigValue → SysctlConfig → SysctlConfig
end

/-- `HashMap::get`. -/
def mapGet : SysctlConfig → Str → Option SysctlConfigValue
  | .nil, _ => none
  | .cons k v m, key => if k = key then some v else mapGet m key

/-- `HashMap::insert`: replace the binding of `key` if present, else add
it. -/
def mapInsert : SysctlConfig → Str → SysctlConfigValue → SysctlConfig
  | .nil, key, v => .cons key v .nil
  | .cons k w m, key, v =>
    if k = key then .cons key v m else .cons k w (mapInsert m key v)

/-- How processing one config line ended: a normal return (`Ok` without
passing through `error_or_ignore`), an error swallowed by the `-` prefix
(`error_or_ignore` returning `Ok`), or a propagated error (`Err`). -/
inductive LineOutcome : Type where
  | ok : LineOutcome
  | ignored : LineOutcome
  | err : LineOutcome
deriving DecidableEq

/-- The value `error_or_ignore` yields on a failing line. -/
def failOutcome (ignore : Bool) : LineOutcome :=
  if ignore then .ignored else .err

/-- Dotted-path lookup in a tree: walk intermediate segments through
subtrees, then read the final segment (the `get` accessor of the spec). -/
def lookupPath : SysctlConfig → List Str → Option SysctlConfigValue
  | _, [] => none
  | m, [k] => mapGet m k
  | m, k :: r :: rest =>
    match mapGet m k with
    | some (.config sub) => lookupPath sub (r :: rest)
    | _ => none

/-- The walk precondition of an insertion: no intermediate segment of the
path currently resolves to a leaf. -/
def walkOk : SysctlConfig → List Str → Bool
  | m, k :: r :: rest =>
    match mapGet m k with
    | none => true
    | some (.config sub) => walkOk sub (r :: rest)
    | some (.str _) => false
  | _, _ => true

mutual
/-- No key anywhere in this value contains a space character. -/
def valueNoSpace : SysctlConfigValue → Bool
  | .str _ => true
  | .config m => configNoSpace m

/-- No key at any level of this map contains a space character. -/
def configNoSpace : SysctlConfig → Bool
  | .nil => true
  | .cons k v m => !hasChar ' ' k && valueNoSpace v && configNoSpace m
end

namespace Task2

/-- The tree-walk of `SysctlConfigLoader::insert_entry_of_line`
(src/task2/src/lib.rs:136-156): for every segment but the last,
`entry(key).or_insert_with(empty subtree)` then descend, failing if the
existing entry is a leaf; at the last segment, unconditionally `insert` a
leaf with the value.  Returns the resulting map and whether the walk
succeeded. -/
def insertKeys : SysctlConfig → List Str → Str → SysctlConfig × Bool
  | m, [], _ => (m, true)
  | m, [k], v => (mapInsert m k (.str v), true)
  | m, k :: r :: rest, v =>
    match mapGet m k with
    | none =>
      let p := insertKeys .nil (r :: rest) v
      (mapInsert m k (.config p.1), p.2)
    | some (.config sub) =>
      let p := insertKeys sub (r :: rest) v
      (mapInsert m k (.config p.1), p.2)
    | some (.str _) => (m, false)

/-- Body of `insert_entry_of_line` after the comment/ignore-prefix handling
(src/task2/src/lib.rs:126-158): split on the first `=`, trim both parts,
reject empty key, empty value, or a key containing a space, then run the
tree walk. -/
def insertEntryBody (m : SysctlConfig) (body : Str) (ignore : Bool) :
    SysctlConfig × LineOutcome :=
  match splitOnceChar '=' body with
  | none => (m, failOutcome ignore)
  | some (kpart, vpart) =>
    let key := trim kpart
    let value := trim vpart
    if key = [] then (m, failOutcome ignore)
    else if value = [] then (m, failOutcome ignore)
    else if hasChar ' ' key then (m, failOutcome ignore)
    else
      let p := insertKeys m (splitAllChar '.' key) value
      (p.1, if p.2 then .ok else failOutcome ignore)

/-- `SysctlConfigLoader::insert_entry_of_line` (src/task2/src/lib.rs:109-159):
skip empty lines and `#`/`;` comments; a leading `-` is stripped and switches
the line to ignore-error mode. -/
def insertEntryOfLine (m : SysctlConfig) (line : Str) :
    SysctlConfig × LineOutcome :=
  match line with
  | [] => (m, .ok)
  | c :: rest =>
    if c = '#' then (m, .ok)
    else if c = ';' then (m, .ok)
    else if c = '-' then insertEntryBody m rest true
    else insertEntryBody m (c :: rest) false

/-- `SysctlConfigLoader::load_sysctl_from_reader`
(src/task2/src/lib.rs:100-107): process the lines in order, aborting the
whole load on the first propagated error. -/
def loadLines (m : SysctlConfig) : List Str → Option SysctlConfig
  | [] => some m
  | l :: ls =>
    let p := insertEntryOfLine m l
    match p.2 with
    | .err => none
    | _ => loadLines p.1 ls

/-- The unvalidated load, starting from the empty map. -/
def loadSysctlFromReader (lines : List Str) : Option SysctlConfig :=
  loadLines .nil lines

end Task2

namespace Task1

/-- The tree-walk of `insert_entry_of_line` (src/task1/src/lib.rs:55-70);
textually the same algorithm as task 2's. -/
def insertKeys : SysctlConfig → List Str → Str → SysctlConfig × Bool
  | m, [], _ => (m, true)
  | m, [k], v => (mapInsert m k (.str v), true)
  | m, k :: r :: rest, v =>
    match mapGet m k with
    | none =>
      let p := insertKeys .nil (r :: rest) v
      (mapInsert m k (.config p.1), p.2)
    | some (.config sub) =>
      let p := insertKeys sub (r :: rest) v
      (mapInsert m k (.config p.1), p.2)
    | some (.str _) => (m, false)

/-- Body of task 1's `insert_entry_of_line` after comment/ignore handling
(src/task1/src/lib.rs:45-72). -/
def insertEntryBody (m : SysctlConfig) (body : Str) (ignore : Bool) :
    SysctlConfig × LineOutcome :=
  match splitOnceChar '=' body with
  | none => (m, failOutcome ignore)
  | some (kpart, vpart) =>
    let key := trim kpart
    let value := trim vpart
    if key = [] then (m, failOutcome ignore)
    else if value = [] then (m, failOutcome ignore)
    else if hasChar ' ' key then (m, failOutcome ignore)
    else
      let p := insertKeys m (splitAllChar '.' key) value
      (p.1, if p.2 then .ok else failOutcome ignore)

/-- `insert_entry_of_line` (src/task1/src/lib.rs:28-73). -/
def insertEntryOfLine (m : SysctlConfig) (line : Str) :
    SysctlConfig × LineOutcome :=
  match line with
  | [] => (m, .ok)
  | c :: rest =>
    if c = '#' then (m, .ok)
    else if c = ';' then (m, .ok)
    else if c = '-' then insertEntryBody m rest true
    else insertEntryBody m (c :: rest) false

/-- `load_sysctl_from_reader` (src/task1/src/lib.rs:19-26). -/
def loadLines (m : SysctlConfig) : List Str → Option SysctlConfig
  | [] => some m
  | l :: ls =>
    let p := insertEntryOfLine m l
    match p.2 with
    | .err => none
    | _ => loadLines p.1 ls

/-- Task 1's load, starting from the empty map. -/
def loadSysctlFromReader (lines : List Str) : Option SysctlConfig :=
  loadLines .nil lines

end Task1

/-- `SysctlConfigType` (src/task2/src/lib.rs:31-36). -/
inductive SysctlConfigType : Type where
  | int : SysctlConfigType
  | float : SysctlConfigType
  | string : SysctlConfigType
  | bool : SysctlConfigType
deriving DecidableEq

/-- `SysctlConfigType::from_string` (src/task2/src/lib.rs:39-47):
case-sensitive match against the four literals; anything else is an error
carrying the offending name. -/
def SysctlConfigType.fromString (s : Str) : Except Str SysctlConfigType :=
  if s = chars ("int") then .ok .int
  else if s = chars ("float") then .ok .float
  else if s = chars ("string") then .ok .string
  else if s = chars ("bool") then .ok .bool
  else .error s

/-- `SysctlConfigSchema` (src/task2/src/lib.rs:8-11). -/
structure SysctlConfigSchema : Type where
  key : Str
  typ : SysctlConfigType
deriving DecidableEq

namespace Task2

/-- `SysctlConfigSchema::new` (src/task2/src/lib.rs:14-17): it calls
`from_string(&typ).unwrap()`, so an unrecognized type name is a panic, not a
returned error; `none` models that panic. -/
def schemaNew (key typ : Str) : Option SysctlConfigSchema :=
  match SysctlConfigType.fromString typ with
  | .ok t => some ⟨key, t⟩
  | .error _ => none

/-- How loading schema lines can end: a schema list, a returned `Err`
(`invalid line`), or a panic reached through `unwrap`. -/
inductive SchemaLoadResult : Type where
  | ok : List SysctlConfigSchema → SchemaLoadResult
  | err : SchemaLoadResult
  | panicked : SchemaLoadResult
deriving DecidableEq

/-- `SysctlConfigLoader::insert_schema_of_line` (src/task2/src/lib.rs:72-89):
skip empty lines, split on the first `->` (missing separator is a returned
error), trim both sides, then build the entry via `SysctlConfigSchema::new`
(which panics on an unknown type). -/
def insertSchemaOfLine (schema : List SysctlConfigSchema) (line : Str) :
    SchemaLoadResult :=
  if line = [] then .ok schema
  else
    match splitOnceArrow line with
    | none => .err
    | some (l, r) =>
      match schemaNew (trim l) (trim r) with
      | some e => .ok (schema ++ [e])
      | none => .panicked

/-- `SysctlConfigLoader::load_sysctl_schema_from_reader`
(src/task2/src/lib.rs:61-70): fold over the lines, propagating the first
error or panic. -/
def loadSchemaLines (schema : List SysctlConfigSchema) :
    List Str → SchemaLoadResult
  | [] => .ok schema
  | l :: ls =>
    match insertSchemaOfLine schema l with
    | .ok s => loadSchemaLines s ls
    | .err => .err
    | .panicked => .panicked

/-- Dotted-path prefixing used by `insert_key`
(src/task2/src/lib.rs:267-271). -/
def joinKey (prev k : Str) : Str :=
  if prev = [] then k else prev ++ '.' :: k

mutual
/-- Leaf dotted-paths contributed by one value, with accumulated prefix
(the body of `SysctlConfigLoader::insert_key`, src/task2/src/lib.rs:265-278).
The Rust code collects into a `HashSet`; the list is read as a set. -/
def valueLeafKeys : SysctlConfigValue → Str → List Str
  | .str _, key => [key]
  | .config m, key => configLeafKeys m key

/-- Leaf dotted-paths of a map under a prefix
(`SysctlConfigLoader::get_all_keys` with `insert_key`,
src/task2/src/lib.rs:259-278). -/
def configLeafKeys : SysctlConfig → Str → List Str
  | .nil, _ => []
  | .cons k v m, prev => valueLeafKeys v (joinKey prev k) ++ configLeafKeys m prev
end

/-- Errors `SysctlConfigLoader::validate` can return, one constructor per
`Error::msg` site (src/task2/src/lib.rs:161-257). -/
inductive ValidateError : Type where
  | surplusKeys : List Str → ValidateError
  | notFound : Str → ValidateError
  | invalidPath : Str → ValidateError
  | keyNotFound : Str → ValidateError
  | typeMismatch : Str → ValidateError
deriving DecidableEq

/-- The per-entry path resolution loop of `validate`
(src/task2/src/lib.rs:176-199): walk the segments; a missing intermediate is
`not found`, an intermediate leaf is `invalid value`; the final segment
yields `map.get` of it.  The `[]` case returns the loop's initial `key not
found` error, which an empty segment list would leave in place (`split`
never produces one). -/
def resolvePath : SysctlConfig → List Str →
    Except ValidateError (Option SysctlConfigValue)
  | m, [k] => .ok (mapGet m k)
  | m, k :: r :: rest =>
    match mapGet m k with
    | none => .error (.notFound k)
    | some (.config sub) => resolvePath sub (r :: rest)
    | some (.str _) => .error (.invalidPath k)
  | _, [] => .error (.keyNotFound [])

/-- The per-type check of `validate` (src/task2/src/lib.rs:206-253): `int`
and `float` require the leaf string to parse, `bool` requires the literal
`true` or `false`, `string` performs no check at all (its arm is empty, so
even a subtree passes); a subtree fails the other three types. -/
def checkValue : SysctlConfigType → SysctlConfigValue → Bool
  | .string, _ => true
  | .int, .str v => (parseI64 v).isSome
  | .float, .str v => isF64 v
  | .bool, .str v => decide (v = chars ("true")) || decide (v = chars ("false"))
  | _, .config _ => false

/-- One iteration of the schema loop in `validate`
(src/task2/src/lib.rs:170-253): resolve the dotted path, fail on `None`,
then type-check. -/
def validateEntry (m : SysctlConfig) (e : SysctlConfigSchema) :
    Option ValidateError :=
  match resolvePath m (splitAllChar '.' e.key) with
  | .error er => some er
  | .ok none => some (.keyNotFound e.key)
  | .ok (some v) =>
    if checkValue e.typ v then none else some (.typeMismatch e.key)

/-- The fail-fast schema loop: first per-entry error, in schema order. -/
def firstEntryError (m : SysctlConfig) :
    List SysctlConfigSchema → Option ValidateError
  | [] => none
  | e :: es =>
    match validateEntry m e with
    | some er => some er
    | none => firstEntryError m es

/-- The leaf keys of the tree left after removing every schema-declared key
(src/task2/src/lib.rs:162-165). -/
def surplusOf (schema : List SysctlConfigSchema) (m : SysctlConfig) :
    List Str :=
  (configLeafKeys m []).filter (fun k => !schema.any (fun e => decide (e.key = k)))

/-- `SysctlConfigLoader::validate` (src/task2/src/lib.rs:161-257): the
surplus-keys check runs first and returns the remaining keys; then the
schema entries are checked in order, fail-fast.  `none` is a successful
validation. -/
def validate (schema : List SysctlConfigSchema) (m : SysctlConfig) :
    Option ValidateError :=
  let surplus := surplusOf schema m
  if surplus = [] then firstEntryError m schema
  else some (.surplusKeys surplus)

end Task2

/-! Basic lemmas about the map operations and the tree walk. -/

theorem mapGet_mapInsert_self : ∀ (m : SysctlConfig) (k : Str) (v : SysctlConfigValue),
    mapGet (mapInsert m k v) k = some v
  | .nil, k, v => by simp [mapInsert, mapGet]
  | .cons k' w m, k, v => by
    by_cases h : k' = k
    · simp [mapInsert, h, mapGet]
    · simp [mapInsert, h, mapGet, mapGet_mapInsert_self m k v]

theorem mapGet_mapInsert_ne : ∀ (m : SysctlConfig) (k k' : Str) (v : SysctlConfigValue),
    k ≠ k' → mapGet (mapInsert m k v) k' = mapGet m k'
  | .nil, k, k', v, h => by simp [mapInsert, mapGet, h]
  | .cons k2 w m, k, k', v, h => by
    by_cases h2 : k2 = k
    · subst h2
      simp [mapInsert, mapGet, h]
    · simp only [mapInsert, if_neg h2]
      by_cases h3 : k2 = k'
      · simp [mapGet, h3]
      · simp [mapGet, h3, mapGet_mapInsert_ne m k k' v h]

theorem mapInsert_self : ∀ (m : SysctlConfig) (k : Str) (v : SysctlConfigValue),
    mapGet m k = some v → mapInsert m k v = m
  | .nil, k, v, h => by simp [mapGet] at h
  | .cons k' w m, k, v, h => by
    by_cases h2 : k' = k
    · subst h2
      simp [mapGet] at h
      simp [mapInsert, h]
    · simp [mapGet, h2] at h
      simp [mapInsert, h2, mapInsert_self m k v h]

theorem walkOk_nil : ∀ ks : List Str, walkOk .nil ks = true
  | [] => rfl
  | [_] => rfl
  | _ :: _ :: _ => rfl

theorem lookupPath_nil : ∀ q : List Str, lookupPath .nil q = none
  | [] => rfl
  | [_] => rfl
  | _ :: _ :: _ => rfl

theorem lookupPath_congr (m1 m2 : SysctlConfig) (k : Str)
    (h : mapGet m1 k = mapGet m2 k) :
    ∀ t : List Str, lookupPath m1 (k :: t) = lookupPath m2 (k :: t)
  | [] => by simpa [lookupPath] using h
  | t0 :: t' => by simp [lookupPath, h]

theorem insertKeys_nil_flag : ∀ (ks : List Str) (v : Str),
    (Task2.insertKeys .nil ks v).2 = true
  | [], _ => rfl
  | [_], _ => rfl
  | k :: r :: rest, v => by
    have ih := insertKeys_nil_flag (r :: rest) v
    simp [Task2.insertKeys, mapGet, ih]

theorem insertKeys_fail_unchanged : ∀ (ks : List Str) (m : SysctlConfig) (v : Str),
    (Task2.insertKeys m ks v).2 = false → (Task2.insertKeys m ks v).1 = m
  | [], m, v, h => by simp [Task2.insertKeys] at h
  | [k], m, v, h => by simp [Task2.insertKeys] at h
  | k :: r :: rest, m, v, h => by
    cases hg : mapGet m k with
    | none =>
      rw [show (Task2.insertKeys m (k :: r :: rest) v)
            = (mapInsert m k (.config (Task2.insertKeys .nil (r :: rest) v).1),
               (Task2.insertKeys .nil (r :: rest) v).2) by
        simp [Task2.insertKeys, hg]] at h
      rw [insertKeys_nil_flag (r :: rest) v] at h
      simp at h
    | some w =>
      cases w with
      | str s => simp [Task2.insertKeys, hg]
      | config sub =>
        have h2 : (Task2.insertKeys sub (r :: rest) v).2 = false := by
          simpa [Task2.insertKeys, hg] using h
        have h1 := insertKeys_fail_unchanged (r :: rest) sub v h2
        simp only [Task2.insertKeys, hg]
        rw [h1]
        exact mapInsert_self m k (.config sub) hg

/-- Full description of a successful tree-walk insertion: when no
intermediate segment is an existing leaf, the walk succeeds, the inserted
leaf is reachable at the path, every path that neither extends nor is a
prefix of the inserted one is untouched, and the walk precondition still
holds afterwards. -/
theorem insertKeys_spec : ∀ (ks : List Str) (m : SysctlConfig) (v : Str),
    ks ≠ [] → walkOk m ks = true →
      (Task2.insertKeys m ks v).2 = true
    ∧ lookupPath (Task2.insertKeys m ks v).1 ks = some (.str v)
    ∧ (∀ q : List Str, ¬ ks <+: q → ¬ q <+: ks →
        lookupPath (Task2.insertKeys m ks v).1 q = lookupPath m q)
    ∧ walkOk (Task2.insertKeys m ks v).1 ks = true
  | [], _, _, h, _ => absurd rfl h
  | [k], m, v, _, _ => by
    refine ⟨rfl, ?_, ?_, rfl⟩
    · simp [Task2.insertKeys, lookupPath, mapGet_mapInsert_self]
    · intro q hq1 hq2
      cases q with
      | nil => exact absurd (List.nil_prefix) hq2
      | cons q0 t =>
        have hqk : q0 ≠ k := by
          intro he
          subst he
          cases t with
          | nil => exact hq2 ⟨[], rfl⟩
          | cons t0 t' => exact hq1 ⟨t0 :: t', rfl⟩
        have hne : k ≠ q0 := fun he => hqk he.symm
        exact lookupPath_congr _ m q0
          (mapGet_mapInsert_ne m k q0 (.str v) hne) t
  | k :: r :: rest, m, v, _, hw => by
    cases hg : mapGet m k with
    | none =>
      obtain ⟨ih1, ih2, ih3, ih4⟩ :=
        insertKeys_spec (r :: rest) .nil v (by simp) (walkOk_nil _)
      rw [show Task2.insertKeys m (k :: r :: rest) v
            = (mapInsert m k (.config (Task2.insertKeys .nil (r :: rest) v).1),
               (Task2.insertKeys .nil (r :: rest) v).2) by
        simp [Task2.insertKeys, hg]]
      refine ⟨ih1, ?_, ?_, ?_⟩
      · simp [lookupPath, mapGet_mapInsert_self, ih2]
      · intro q hq1 hq2
        cases q with
        | nil => exact absurd (List.nil_prefix) hq2
        | cons q0 t =>
          by_cases hqk : q0 = k
          · subst hqk
            cases t with
            | nil => exact absurd ⟨r :: rest, rfl⟩ hq2
            | cons t0 t' =>
              have hq1' : ¬ (r :: rest) <+: (t0 :: t') := by
                rintro ⟨u, hu⟩
                exact hq1 ⟨u, by rw [List.cons_append, hu]⟩
              have hq2' : ¬ (t0 :: t') <+: (r :: rest) := by
                rintro ⟨u, hu⟩
                exact hq2 ⟨u, by rw [List.cons_append, hu]⟩
              have hL : lookupPath
                  (mapInsert m q0
                    (.config (Task2.insertKeys .nil (r :: rest) v).1))
                  (q0 :: t0 :: t')
                  = lookupPath (Task2.insertKeys .nil (r :: rest) v).1 (t0 :: t') := by
                simp [lookupPath, mapGet_mapInsert_self]
              rw [hL, ih3 _ hq1' hq2', lookupPath_nil]
              simp [lookupPath, hg]
          · have hne : k ≠ q0 := fun he => hqk he.symm
            exact lookupPath_congr _ m q0
              (mapGet_mapInsert_ne m k q0 _ hne) t
      · simp [walkOk, mapGet_mapInsert_self, ih4]
    | some w =>
      cases w with
      | str s => simp [walkOk, hg] at hw
      | config sub =>
        have hw' : walkOk sub (r :: rest) = true := by
          simpa [walkOk, hg] using hw
        obtain ⟨ih1, ih2, ih3, ih4⟩ :=
          insertKeys_spec (r :: rest) sub v (by simp) hw'
        rw [show Task2.insertKeys m (k :: r :: rest) v
              = (mapInsert m k (.config (Task2.insertKeys sub (r :: rest) v).1),
                 (Task2.insertKeys sub (r :: rest) v).2) by
          simp [Task2.insertKeys, hg]]
        refine ⟨ih1, ?_, ?_, ?_⟩
        · simp [lookupPath, mapGet_mapInsert_self, ih2]
        · intro q hq1 hq2
          cases q with
          | nil => exact absurd (List.nil_prefix) hq2
          | cons q0 t =>
            by_cases hqk : q0 = k
            · subst hqk
              cases t with
              | nil => exact absurd ⟨r :: rest, rfl⟩ hq2
              | cons t0 t' =>
                have hq1' : ¬ (r :: rest) <+: (t0 :: t') := by
                  rintro ⟨u, hu⟩
                  exact hq1 ⟨u, by rw [List.cons_append, hu]⟩
                have hq2' : ¬ (t0 :: t') <+: (r :: rest) := by
                  rintro ⟨u, hu⟩
                  exact hq2 ⟨u, by rw [List.cons_append, hu]⟩
                have hL : lookupPath
                    (mapInsert m q0
                      (.config (Task2.insertKeys sub (r :: rest) v).1))
                    (q0 :: t0 :: t')
                    = lookupPath (Task2.insertKeys sub (r :: rest) v).1 (t0 :: t') := by
                  simp [lookupPath, mapGet_mapInsert_self]
                rw [hL, ih3 _ hq1' hq2']
                simp [lookupPath, hg]
            · have hne : k ≠ q0 := fun he => hqk he.symm
              exact lookupPath_congr _ m q0
                (mapGet_mapInsert_ne m k q0 _ hne) t
        · simp [walkOk, mapGet_mapInsert_self, ih4]

theorem splitAllChar_ne_nil (c : Char) : ∀ s : Str, splitAllChar c s ≠ []
  | [] => by simp [splitAllChar]
  | x :: xs => by
    cases h : splitAllChar c xs with
    | nil => exact absurd h (splitAllChar_ne_nil c xs)
    | cons a rest =>
      by_cases hx : x = c <;> simp [splitAllChar, h, hx]

theorem splitOnceChar_append (c : Char) : ∀ (a b : Str), hasChar c a = false →
    splitOnceChar c (a ++ c :: b) = some (a, b)
  | [], b, _ => by simp [splitOnceChar]
  | x :: xs, b, h => by
    have hx : x ≠ c ∧ hasChar c xs = false := by
      simpa [hasChar] using h
    simp [splitOnceChar, hx.1, splitOnceChar_append c xs b hx.2]

/-- Reduction of `insert_entry_of_line` on a well-shaped `key = value` line:
a line starting with none of `#`, `;`, `-`, whose key part contains no `=`,
and which passes the emptiness and space checks, runs the tree walk and
reports `Ok` or `Err` according to its flag. -/
theorem insertEntryOfLine_wf
    (m : SysctlConfig) (c : Char) (kr vpart : Str)
    (h1 : c ≠ '#') (h2 : c ≠ ';') (h3 : c ≠ '-')
    (hne : hasChar '=' (c :: kr) = false)
    (hk : trim (c :: kr) ≠ []) (hv : trim vpart ≠ [])
    (hs : hasChar ' ' (trim (c :: kr)) = false) :
    Task2.insertEntryOfLine m ((c :: kr) ++ '=' :: vpart)
      = ((Task2.insertKeys m (splitAllChar '.' (trim (c :: kr))) (trim vpart)).1,
         if (Task2.insertKeys m (splitAllChar '.' (trim (c :: kr))) (trim vpart)).2
           then .ok else .err) := by
  have hsplit : splitOnceChar '=' (c :: (kr ++ '=' :: vpart)) = some (c :: kr, vpart) := by
    simpa using splitOnceChar_append '=' (c :: kr) vpart hne
  simp only [List.cons_append]
  rw [show Task2.insertEntryOfLine m (c :: (kr ++ '=' :: vpart))
        = Task2.insertEntryBody m (c :: (kr ++ '=' :: vpart)) false by
    simp [Task2.insertEntryOfLine, h1, h2, h3]]
  simp [Task2.insertEntryBody, hsplit, hk, hv, hs, failOutcome]

/-- An existing leaf strictly above the target path makes the tree walk fail
without touching the tree. -/
theorem insertKeys_leaf_prefix_fail :
    ∀ (ks : List Str) (m : SysctlConfig) (ks2 : List Str) (v s : Str),
    lookupPath m ks = some (.str s) → ks <+: ks2 → ks ≠ ks2 →
    Task2.insertKeys m ks2 v = (m, false)
  | [], _, _, _, _, hl, _, _ => by simp [lookupPath] at hl
  | [k], m, ks2, v, s, hl, hpre, hne => by
    obtain ⟨u, hu⟩ := hpre
    subst hu
    cases u with
    | nil => exact absurd (by simp) hne
    | cons u0 u' =>
      have hg : mapGet m k = some (.str s) := by simpa [lookupPath] using hl
      simp [Task2.insertKeys, hg]
  | k :: r :: rest, m, ks2, v, s, hl, hpre, hne => by
    obtain ⟨u, hu⟩ := hpre
    subst hu
    cases hg : mapGet m k with
    | none => simp [lookupPath, hg] at hl
    | some w =>
      cases w with
      | str s2 => simp [lookupPath, hg] at hl
      | config sub =>
        have hl' : lookupPath sub (r :: rest) = some (.str s) := by
          simpa [lookupPath, hg] using hl
        have hu_ne : u ≠ [] := by
          intro he
          subst he
          simp at hne
        have hne' : (r :: rest : List Str) ≠ (r :: rest) ++ u := by
          intro he
          exact hu_ne (by simpa using he.symm)
        have ih := insertKeys_leaf_prefix_fail (r :: rest) sub ((r :: rest) ++ u)
          v s hl' ⟨u, rfl⟩ hne'
        have hshape : (k :: r :: rest) ++ u = k :: r :: (rest ++ u) := by simp
        rw [hshape]
        have ih' : Task2.insertKeys sub (r :: (rest ++ u)) v = (sub, false) := by
          rw [← List.cons_append]
          exact ih
        rw [show Task2.insertKeys m (k :: r :: (rest ++ u)) v
              = (mapInsert m k (.config (Task2.insertKeys sub (r :: (rest ++ u)) v).1),
                 (Task2.insertKeys sub (r :: (rest ++ u)) v).2) by
          simp [Task2.insertKeys, hg]]
        rw [ih']
        simp [mapInsert_self m k (.config sub) hg]

/-! Lemmas for the no-space-in-keys invariant. -/

theorem splitAllChar_hasChar (c d : Char) : ∀ (s : Str), hasChar d s = false →
    ∀ seg ∈ splitAllChar c s, hasChar d seg = false
  | [], _, seg, hseg => by
    simp [splitAllChar] at hseg
    subst hseg
    rfl
  | x :: xs, h, seg, hseg => by
    have hx : x ≠ d ∧ hasChar d xs = false := by
      simpa [hasChar] using h
    cases hsp : splitAllChar c xs with
    | nil => exact absurd hsp (splitAllChar_ne_nil c xs)
    | cons a rest =>
      by_cases hxc : x = c
      · rw [show splitAllChar c (x :: xs) = [] :: a :: rest by
          simp [splitAllChar, hsp, hxc]] at hseg
        rcases List.mem_cons.mp hseg with rfl | hseg2
        · rfl
        · exact splitAllChar_hasChar c d xs hx.2 seg (by
            rw [hsp]
            exact hseg2)
      · rw [show splitAllChar c (x :: xs) = (x :: a) :: rest by
          simp [splitAllChar, hsp, hxc]] at hseg
        rcases List.mem_cons.mp hseg with rfl | hseg2
        · have ha : hasChar d a = false :=
            splitAllChar_hasChar c d xs hx.2 a (by rw [hsp]; exact List.mem_cons_self a rest)
          simp [hasChar, hx.1, ha]
        · exact splitAllChar_hasChar c d xs hx.2 seg (by
            rw [hsp]
            exact List.mem_cons_of_mem a hseg2)

theorem mapGet_noSpace : ∀ (m : SysctlConfig) (k : Str) (v : SysctlConfigValue),
    configNoSpace m = true → mapGet m k = some v → valueNoSpace v = true
  | .nil, _, _, _, hg => by simp [mapGet] at hg
  | .cons k' w m', k, v, hns, hg => by
    have hns' : hasChar ' ' k' = false ∧ valueNoSpace w = true ∧ configNoSpace m' = true := by
      simpa [configNoSpace, Bool.and_eq_true, and_assoc] using hns
    by_cases h : k' = k
    · rw [show v = w by simpa [mapGet, h] using hg.symm]
      exact hns'.2.1
    · exact mapGet_noSpace m' k v hns'.2.2 (by simpa [mapGet, h] using hg)

theorem mapInsert_noSpace : ∀ (m : SysctlConfig) (k : Str) (v : SysctlConfigValue),
    configNoSpace m = true → hasChar ' ' k = false → valueNoSpace v = true →
    configNoSpace (mapInsert m k v) = true
  | .nil, k, v, _, hk, hv => by simp [mapInsert, configNoSpace, hk, hv]
  | .cons k' w m', k, v, hns, hk, hv => by
    have hns' : hasChar ' ' k' = false ∧ valueNoSpace w = true ∧ configNoSpace m' = true := by
      simpa [configNoSpace, Bool.and_eq_true, and_assoc] using hns
    by_cases h : k' = k
    · simp [mapInsert, h, configNoSpace, hk, hv, hns'.2.2]
    · simp [mapInsert, h, configNoSpace, hns'.1, hns'.2.1,
        mapInsert_noSpace m' k v hns'.2.2 hk hv]

theorem insertKeys_noSpace : ∀ (ks : List Str) (m : SysctlConfig) (v : Str),
    configNoSpace m = true → (∀ seg ∈ ks, hasChar ' ' seg = false) →
    configNoSpace (Task2.insertKeys m ks v).1 = true
  | [], m, v, hns, _ => hns
  | [k], m, v, hns, hks => by
    have hk := hks k (by simp)
    simpa [Task2.insertKeys] using
      mapInsert_noSpace m k (.str v) hns hk rfl
  | k :: r :: rest, m, v, hns, hks => by
    have hk := hks k (by simp)
    have hks' : ∀ seg ∈ r :: rest, hasChar ' ' seg = false := by
      intro seg hseg
      exact hks seg (List.mem_cons_of_mem k hseg)
    cases hg : mapGet m k with
    | none =>
      have hsub := insertKeys_noSpace (r :: rest) .nil v rfl hks'
      simpa [Task2.insertKeys, hg] using
        mapInsert_noSpace m k (.config (Task2.insertKeys .nil (r :: rest) v).1)
          hns hk (by simpa [valueNoSpace] using hsub)
    | some w =>
      cases w with
      | str s => simpa [Task2.insertKeys, hg] using hns
      | config sub =>
        have hsubns : configNoSpace sub = true := by
          simpa [valueNoSpace] using mapGet_noSpace m k (.config sub) hns hg
        have hsub := insertKeys_noSpace (r :: rest) sub v hsubns hks'
        simpa [Task2.insertKeys, hg] using
          mapInsert_noSpace m k (.config (Task2.insertKeys sub (r :: rest) v).1)
            hns hk (by simpa [valueNoSpace] using hsub)

theorem insertEntryBody_noSpace (m : SysctlConfig) (body : Str) (ig : Bool)
    (hns : configNoSpace m = true) :
    configNoSpace (Task2.insertEntryBody m body ig).1 = true := by
  unfold Task2.insertEntryBody
  cases hsp : splitOnceChar '=' body with
  | none => exact hns
  | some p =>
    obtain ⟨kpart, vpart⟩ := p
    by_cases hk : trim kpart = []
    · simpa [hk] using hns
    · by_cases hv : trim vpart = []
      · simpa [hk, hv] using hns
      · by_cases hs : hasChar ' ' (trim kpart) = true
        · simpa [hk, hv, hs] using hns
        · have hs' : hasChar ' ' (trim kpart) = false := by
            simpa using hs
          have := insertKeys_noSpace (splitAllChar '.' (trim kpart)) m (trim vpart)
            hns (splitAllChar_hasChar '.' ' ' (trim kpart) hs')
          simpa [hk, hv, hs'] using this

theorem insertEntryOfLine_noSpace (m : SysctlConfig) (line : Str)
    (hns : configNoSpace m = true) :
    configNoSpace (Task2.insertEntryOfLine m line).1 = true := by
  unfold Task2.insertEntryOfLine
  cases line with
  | nil => exact hns
  | cons c rest =>
    by_cases h1 : c = '#'
    · simpa [h1] using hns
    · by_cases h2 : c = ';'
      · simpa [h1, h2] using hns
      · by_cases h3 : c = '-'
        · simpa [h1, h2, h3] using insertEntryBody_noSpace m rest true hns
        · simpa [h1, h2, h3] using insertEntryBody_noSpace m (c :: rest) false hns

theorem loadLines_noSpace : ∀ (ls : List Str) (m m2 : SysctlConfig),
    configNoSpace m = true → Task2.loadLines m ls = some m2 →
    configNoSpace m2 = true
  | [], m, m2, hns, hl => by
    rw [show m2 = m by simpa [Task2.loadLines] using hl.symm]
    exact hns
  | l :: ls, m, m2, hns, hl => by
    have hstep := insertEntryOfLine_noSpace m l hns
    cases ho : (Task2.insertEntryOfLine m l).2 with
    | err =>
      rw [show Task2.loadLines m (l :: ls) = none by
        simp [Task2.loadLines, ho]] at hl
      exact absurd hl (by simp)
    | ok =>
      exact loadLines_noSpace ls _ m2 hstep (by
        simpa [Task2.loadLines, ho] using hl)
    | ignored =>
      exact loadLines_noSpace ls _ m2 hstep (by
        simpa [Task2.loadLines, ho] using hl)

/-! Task 1 and task 2 run the same per-line algorithm. -/

theorem t1_t2_insertKeys : ∀ (ks : List Str) (m : SysctlConfig) (v : Str),
    Task1.insertKeys m ks v = Task2.insertKeys m ks v
  | [], _, _ => rfl
  | [_], _, _ => rfl
  | k :: r :: rest, m, v => by
    cases hg : mapGet m k with
    | none =>
      simp [Task1.insertKeys, Task2.insertKeys, hg,
        t1_t2_insertKeys (r :: rest) .nil v]
    | some w =>
      cases w with
      | str s => simp [Task1.insertKeys, Task2.insertKeys, hg]
      | config sub =>
        simp [Task1.insertKeys, Task2.insertKeys, hg,
          t1_t2_insertKeys (r :: rest) sub v]

theorem t1_t2_insertEntryBody (m : SysctlConfig) (body : Str) (ig : Bool) :
    Task1.insertEntryBody m body ig = Task2.insertEntryBody m body ig := by
  unfold Task1.insertEntryBody Task2.insertEntryBody
  cases splitOnceChar '=' body with
  | none => rfl
  | some p =>
    obtain ⟨kpart, vpart⟩ := p
    simp [t1_t2_insertKeys]

theorem t1_t2_insertEntryOfLine (m : SysctlConfig) (line : Str) :
    Task1.insertEntryOfLine m line = Task2.insertEntryOfLine m line := by
  unfold Task1.insertEntryOfLine Task2.insertEntryOfLine
  cases line with
  | nil => rfl
  | cons c rest => simp [t1_t2_insertEntryBody]

theorem t1_t2_loadLines : ∀ (ls : List Str) (m : SysctlConfig),
    Task1.loadLines m ls = Task2.loadLines m ls
  | [], _ => rfl
  | l :: ls, m => by
    unfold Task1.loadLines Task2.loadLines
    rw [t1_t2_insertEntryOfLine]
    cases h2 : (Task2.insertEntryOfLine m l).2 with
    | err => simp [h2]
    | ok => simpa [h2] using t1_t2_loadLines ls (Task2.insertEntryOfLine m l).1
    | ignored => simpa [h2] using t1_t2_loadLines ls (Task2.insertEntryOfLine m l).1

/-- Error-or-ignore exits of the line body leave the map untouched. -/
theorem insertEntryBody_unchanged (m : SysctlConfig) (body : Str) (ig : Bool) :
    (Task2.insertEntryBody m body ig).2 ≠ .ok →
    (Task2.insertEntryBody m body ig).1 = m := by
  unfold Task2.insertEntryBody
  cases hsp : splitOnceChar '=' body with
  | none => intro _; rfl
  | some p =>
    obtain ⟨kpart, vpart⟩ := p
    by_cases hk : trim kpart = []
    · intro _
      simp [hk]
    · by_cases hv : trim vpart = []
      · intro _
        simp [hk, hv]
      · by_cases hs : hasChar ' ' (trim kpart) = true
        · intro _
          simp [hk, hv, hs]
        · intro h
          cases hfl : (Task2.insertKeys m (splitAllChar '.' (trim kpart)) (trim vpart)).2 with
          | true =>
            exfalso
            apply h
            simp [hk, hv, hs, hfl]
          | false =>
            simp [hk, hv, hs, hfl]
            exact insertKeys_fail_unchanged _ m _ hfl

/-! The ten claims. -/

/-- C1, counterexample to the claim as stated: after `a.b = 1` creates the
subtree `a`, the line `a = 2` does not produce a conflicting-redefinition
error — the load succeeds and the subtree `a` (with its leaf `a.b`) is
silently replaced by the leaf `a = 2`. -/
theorem c1_counterexample :
    Task2.loadLines .nil [chars ("a.b = 1")]
      = some (.cons (chars ("a"))
          (.config (.cons (chars ("b")) (.str (chars ("1"))) .nil)) .nil)
  ∧ Task2.loadLines .nil [chars ("a.b = 1"), chars ("a = 2")]
      = some (.cons (chars ("a")) (.str (chars ("2"))) .nil) :=
  ⟨rfl, rfl⟩

/-- C1, amended: the protection is one-directional.  A line that would use an
existing Leaf as an intermediate (subtree) segment fails and leaves the tree
unchanged; but a line whose final segment names an existing node — of either
kind, a Subtree included — always succeeds and silently overwrites that node
with a Leaf. -/
theorem c1_no_silent_leaf_to_subtree :
    (∀ (m : SysctlConfig) (k s v : Str) (rest : List Str), rest ≠ [] →
       mapGet m k = some (.str s) →
       Task2.insertKeys m (k :: rest) v = (m, false))
  ∧ (∀ (m : SysctlConfig) (k v : Str),
       (Task2.insertKeys m [k] v).2 = true
       ∧ mapGet (Task2.insertKeys m [k] v).1 k = some (.str v)) := by
  constructor
  · intro m k s v rest hrest hg
    cases rest with
    | nil => exact absurd rfl hrest
    | cons r rest' => simp [Task2.insertKeys, hg]
  · intro m k v
    exact ⟨rfl, by simp [Task2.insertKeys, mapGet_mapInsert_self]⟩

/-- Witness for C1's amended theorem at a concrete input. -/
theorem c1_witness :
    Task2.insertKeys (.cons (chars ("x")) (.str (chars ("1"))) .nil)
      [chars ("x"), chars ("y")] (chars ("2"))
    = (.cons (chars ("x")) (.str (chars ("1"))) .nil, false) :=
  c1_no_silent_leaf_to_subtree.1 _ (chars ("x")) (chars ("1")) (chars ("2"))
    [chars ("y")] (by simp) rfl

/-- C2, counterexample to the claim as stated: a key containing an interior
tab is not rejected (the code checks only for the space character), and a
key beginning with `.` stores an empty-string map key; both loads succeed. -/
theorem c2_counterexample :
    Task2.loadLines .nil [chars ("a\tb = 1")]
      = some (.cons ('a' :: '\t' :: 'b' :: []) (.str (chars ("1"))) .nil)
  ∧ Task2.loadLines .nil [chars (".a = 1")]
      = some (.cons []
          (.config (.cons (chars ("a")) (.str (chars ("1"))) .nil)) .nil) :=
  ⟨rfl, rfl⟩

/-- C2, amended: every key stored at any level of a successfully loaded tree
contains no space character `' '` — that is the only character the key check
rejects — and a non-`-`-prefixed `key = value` line whose trimmed key or
trimmed value is empty errors and fails the whole load.  Non-space
whitespace such as tab can survive inside keys, and dot-splitting can
store empty segment keys, as the counterexample shows. -/
theorem c2_loaded_keys_space_free :
    (∀ (ls : List Str) (m : SysctlConfig),
       Task2.loadSysctlFromReader ls = some m → configNoSpace m = true)
  ∧ (∀ (m : SysctlConfig) (c : Char) (rest kpart vpart : Str),
       c ≠ '#' → c ≠ ';' → c ≠ '-' →
       splitOnceChar '=' (c :: rest) = some (kpart, vpart) →
       (trim kpart = [] ∨ trim vpart = []) →
       Task2.insertEntryOfLine m (c :: rest) = (m, .err)
       ∧ ∀ ls : List Str, Task2.loadLines m ((c :: rest) :: ls) = none) := by
  constructor
  · intro ls m h
    exact loadLines_noSpace ls .nil m rfl h
  · intro m c rest kpart vpart h1 h2 h3 hsp hor
    have hline : Task2.insertEntryOfLine m (c :: rest) = (m, .err) := by
      rw [show Task2.insertEntryOfLine m (c :: rest)
            = Task2.insertEntryBody m (c :: rest) false by
        simp [Task2.insertEntryOfLine, h1, h2, h3]]
      cases hor with
      | inl h => simp [Task2.insertEntryBody, hsp, h, failOutcome]
      | inr h =>
        by_cases hk : trim kpart = [] <;>
          simp [Task2.insertEntryBody, hsp, hk, h, failOutcome]
    refine ⟨hline, ?_⟩
    intro ls
    simp [Task2.loadLines, hline]

/-- Witness for C2's amended theorem at concrete inputs: a loaded tree with
space-free keys, and the empty-value line `x =` erroring with the load
aborted. -/
theorem c2_witness :
    configNoSpace (.cons (chars ("k")) (.str (chars ("v"))) .nil) = true
  ∧ Task2.insertEntryOfLine .nil (chars ("x =")) = (.nil, .err)
  ∧ Task2.loadLines .nil [chars ("x =")] = none :=
  ⟨c2_loaded_keys_space_free.1 [chars ("k = v")] _ rfl,
   (c2_loaded_keys_space_free.2 .nil 'x' (chars (" =")) (chars ("x ")) []
     (by decide) (by decide) (by decide) (by decide) (by decide)).1,
   (c2_loaded_keys_space_free.2 .nil 'x' (chars (" =")) (chars ("x ")) []
     (by decide) (by decide) (by decide) (by decide) (by decide)).2 []⟩

/-- C3, counterexample to the claim as stated: with schema
`a -> string, a.b -> int` and config `a.b = 1`, the path `a` resolves to a
Subtree, yet validation succeeds — no type-mismatch error is raised for the
`string`-typed entry. -/
theorem c3_counterexample :
    Task2.resolvePath
      (.cons (chars ("a"))
        (.config (.cons (chars ("b")) (.str (chars ("1"))) .nil)) .nil)
      (splitAllChar '.' (chars ("a")))
      = .ok (some (.config (.cons (chars ("b")) (.str (chars ("1"))) .nil)))
  ∧ Task2.validate [⟨chars ("a"), .string⟩, ⟨chars ("a.b"), .int⟩]
      (.cons (chars ("a"))
        (.config (.cons (chars ("b")) (.str (chars ("1"))) .nil)) .nil)
      = none :=
  ⟨rfl, rfl⟩

/-- C3, amended: a schema entry whose dotted path resolves to a Subtree is a
type-mismatch failure for `int`, `float` and `bool`, but the `string` arm
performs no check at all, so a Subtree passes a `string`-typed entry. -/
theorem c3_subtree_resolution :
    ∀ (m sub : SysctlConfig) (e : SysctlConfigSchema),
      Task2.resolvePath m (splitAllChar '.' e.key) = .ok (some (.config sub)) →
        (e.typ ≠ .string → Task2.validateEntry m e = some (.typeMismatch e.key))
      ∧ (e.typ = .string → Task2.validateEntry m e = none) := by
  intro m sub e hres
  constructor
  · intro ht
    unfold Task2.validateEntry
    rw [hres]
    have hc : Task2.checkValue e.typ (.config sub) = false := by
      cases h : e.typ with
      | string => exact absurd h ht
      | int => rfl
      | float => rfl
      | bool => rfl
    simp [hc]
  · intro ht
    unfold Task2.validateEntry
    rw [hres, ht]
    rfl

/-- Witness for C3's amended theorem at a concrete input. -/
theorem c3_witness :
    Task2.validateEntry
      (.cons (chars ("a"))
        (.config (.cons (chars ("b")) (.str (chars ("1"))) .nil)) .nil)
      ⟨chars ("a"), .int⟩ = some (.typeMismatch (chars ("a"))) :=
  (c3_subtree_resolution
    (.cons (chars ("a"))
      (.config (.cons (chars ("b")) (.str (chars ("1"))) .nil)) .nil)
    (.cons (chars ("b")) (.str (chars ("1"))) .nil)
    ⟨chars ("a"), .int⟩ (by rfl)).1 (by decide)

/-- C4: an unrecognized (or empty) type name on the right of `->` does reach
`SysctlConfigType::from_string` as an error, but `SysctlConfigSchema::new`
calls `.unwrap()` on that result, so the schema load panics instead of
returning the error to the caller as the claim states. -/
theorem c4_unknown_type_panics :
    SysctlConfigType.fromString (chars ("integer")) = .error (chars ("integer"))
  ∧ Task2.insertSchemaOfLine [] (chars ("a -> integer")) = .panicked
  ∧ Task2.loadSchemaLines [] [chars ("a -> integer")] = .panicked
  ∧ Task2.loadSchemaLines [] [chars ("a ->")] = .panicked :=
  ⟨rfl, rfl, rfl, rfl⟩

/-- C5: a well-formed `key = value` line (no comment/ignore lead character,
no `=` in the key part, non-empty trimmed key and value, no space in the
trimmed key, no intermediate segment currently a leaf) succeeds, makes the
leaf holding the trimmed value reachable at the dotted path of the trimmed
key, touches no path that neither extends nor prefixes that path, and a
later re-declaration of the same key silently overwrites the leaf with the
new trimmed value (last-write-wins, no error). -/
theorem c5_wellformed_line_inserts_one_leaf :
    ∀ (m : SysctlConfig) (c : Char) (kr vpart : Str),
      c ≠ '#' → c ≠ ';' → c ≠ '-' →
      hasChar '=' (c :: kr) = false →
      trim (c :: kr) ≠ [] → trim vpart ≠ [] →
      hasChar ' ' (trim (c :: kr)) = false →
      walkOk m (splitAllChar '.' (trim (c :: kr))) = true →
      ∃ m', Task2.insertEntryOfLine m ((c :: kr) ++ '=' :: vpart) = (m', .ok)
        ∧ lookupPath m' (splitAllChar '.' (trim (c :: kr)))
            = some (.str (trim vpart))
        ∧ (∀ q : List Str, ¬ splitAllChar '.' (trim (c :: kr)) <+: q →
             ¬ q <+: splitAllChar '.' (trim (c :: kr)) →
             lookupPath m' q = lookupPath m q)
        ∧ ∀ v2 : Str, trim v2 ≠ [] →
            ∃ m'', Task2.insertEntryOfLine m' ((c :: kr) ++ '=' :: v2)
                = (m'', .ok)
              ∧ lookupPath m'' (splitAllChar '.' (trim (c :: kr)))
                  = some (.str (trim v2)) := by
  intro m c kr vpart h1 h2 h3 hne hk hv hs hw
  obtain ⟨f1, f2, f3, f4⟩ :=
    insertKeys_spec (splitAllChar '.' (trim (c :: kr))) m (trim vpart)
      (splitAllChar_ne_nil _ _) hw
  refine ⟨(Task2.insertKeys m (splitAllChar '.' (trim (c :: kr))) (trim vpart)).1,
    ?_, f2, f3, ?_⟩
  · rw [insertEntryOfLine_wf m c kr vpart h1 h2 h3 hne hk hv hs]
    simp [f1]
  · intro v2 hv2
    obtain ⟨g1, g2, _, _⟩ :=
      insertKeys_spec (splitAllChar '.' (trim (c :: kr)))
        (Task2.insertKeys m (splitAllChar '.' (trim (c :: kr))) (trim vpart)).1
        (trim v2) (splitAllChar_ne_nil _ _) f4
    refine ⟨_, ?_, g2⟩
    rw [insertEntryOfLine_wf _ c kr v2 h1 h2 h3 hne hk hv2 hs]
    simp [g1]

/-- Witness for C5 at a concrete input. -/
theorem c5_witness :
    ∃ m', Task2.insertEntryOfLine .nil (('a' :: chars (".b")) ++ '=' :: chars (" 1"))
        = (m', .ok)
      ∧ lookupPath m' (splitAllChar '.' (trim ('a' :: chars (".b"))))
          = some (.str (trim (chars (" 1")))) := by
  obtain ⟨m', hm1, hm2, -, -⟩ :=
    c5_wellformed_line_inserts_one_leaf .nil 'a' (chars (".b")) (chars (" 1"))
      (by decide) (by decide) (by decide) (by decide) (by decide) (by decide)
      (by decide) (by decide)
  exact ⟨m', hm1, hm2⟩

/-- C6: when the set of leaf dotted-paths of the tree minus the
schema-declared keys is non-empty, validation fails with a surplus-keys
error naming exactly those keys, and this is decided before the per-entry
checks run; the concrete part has both a surplus leaf `z` and a missing
schema key `w`, and surplus is reported. -/
theorem c6_surplus_checked_first :
    (∀ (schema : List SysctlConfigSchema) (m : SysctlConfig),
       Task2.surplusOf schema m ≠ [] →
       Task2.validate schema m = some (.surplusKeys (Task2.surplusOf schema m)))
  ∧ Task2.validate [⟨chars ("w"), .string⟩]
      (.cons (chars ("z")) (.str (chars ("1"))) .nil)
      = some (.surplusKeys [chars ("z")]) := by
  constructor
  · intro schema m h
    unfold Task2.validate
    simp [h]
  · rfl

/-- Witness for C6's general part at a concrete input. -/
theorem c6_witness :
    Task2.validate [⟨chars ("q"), .int⟩]
      (.cons (chars ("p")) (.str (chars ("3"))) .nil)
      = some (.surplusKeys [chars ("p")]) :=
  c6_surplus_checked_first.1 _ _ (by decide)

/-- C7: the per-type leaf checks — `int` passes exactly the strings accepted
by the embedded Rust i64 parser, `float` exactly the Rust f64 grammar,
`bool` exactly the literals `true`/`false`, `string` everything — together
with the concrete cases named by the claim. -/
theorem c7_type_checks :
    (∀ v : Str, Task2.checkValue .int (.str v) = (parseI64 v).isSome)
  ∧ (∀ v : Str, Task2.checkValue .float (.str v) = isF64 v)
  ∧ (∀ v : Str, Task2.checkValue .bool (.str v)
       = (decide (v = chars ("true")) || decide (v = chars ("false"))))
  ∧ (∀ v : Str, Task2.checkValue .string (.str v) = true)
  ∧ Task2.checkValue .int (.str (chars ("42"))) = true
  ∧ Task2.checkValue .int (.str (chars ("4.2"))) = false
  ∧ Task2.checkValue .float (.str (chars ("4.2"))) = true
  ∧ Task2.checkValue .float (.str (chars ("2"))) = true
  ∧ Task2.checkValue .float (.str (chars ("abc"))) = false
  ∧ Task2.checkValue .bool (.str (chars ("true"))) = true
  ∧ Task2.checkValue .bool (.str (chars ("false"))) = true
  ∧ Task2.checkValue .bool (.str (chars ("1"))) = false :=
  ⟨fun _ => rfl, fun _ => rfl, fun _ => rfl, fun _ => rfl,
   rfl, rfl, rfl, rfl, rfl, rfl, rfl, rfl⟩

/-- C8: a key already holding a leaf that is then used as a strict ancestor
(intermediate segment) of a later line's path makes the walk fail with the
tree unchanged; concretely, `a = 1` then `a.b = 2` fails the load, while
`a = 1` then `-a.b = 2` is skipped and the tree keeps exactly the leaf
`a = 1`. -/
theorem c8_leaf_reused_as_ancestor :
    (∀ (m : SysctlConfig) (ks ks2 : List Str) (v s : Str),
       lookupPath m ks = some (.str s) → ks <+: ks2 → ks ≠ ks2 →
       Task2.insertKeys m ks2 v = (m, false))
  ∧ Task2.loadLines .nil [chars ("a = 1"), chars ("a.b = 2")] = none
  ∧ Task2.loadLines .nil [chars ("a = 1"), chars ("-a.b = 2")]
      = some (.cons (chars ("a")) (.str (chars ("1"))) .nil) := by
  refine ⟨?_, rfl, rfl⟩
  intro m ks ks2 v s hl hp hne
  exact insertKeys_leaf_prefix_fail ks m ks2 v s hl hp hne

/-- Witness for C8's general part at a concrete input. -/
theorem c8_witness :
    Task2.insertKeys (.cons (chars ("w")) (.str (chars ("7"))) .nil)
      [chars ("w"), chars ("x")] (chars ("9"))
    = (.cons (chars ("w")) (.str (chars ("7"))) .nil, false) :=
  c8_leaf_reused_as_ancestor.1 _ [chars ("w")] _ (chars ("9")) (chars ("7"))
    rfl ⟨[chars ("x")], rfl⟩ (by decide)

/-- C9: on every input, task 1's load and task 2's unvalidated load either
both fail or both succeed with structurally identical trees. -/
theorem c9_task1_task2_agree :
    ∀ lines : List Str,
      Task1.loadSysctlFromReader lines = Task2.loadSysctlFromReader lines := by
  intro lines
  exact t1_t2_loadLines lines .nil

/-- C10: per-line atomicity — whenever processing a line ends in the
error-or-ignore branch (any outcome other than a normal `Ok`), the tree is
exactly unchanged; in particular the tree walk never leaves partially
created intermediate subtrees behind on failure. -/
theorem c10_failing_line_leaves_tree_unchanged :
    (∀ (m : SysctlConfig) (ks : List Str) (v : Str),
       (Task2.insertKeys m ks v).2 = false → (Task2.insertKeys m ks v).1 = m)
  ∧ (∀ (m : SysctlConfig) (line : Str),
       (Task2.insertEntryOfLine m line).2 ≠ .ok →
       (Task2.insertEntryOfLine m line).1 = m) := by
  constructor
  · intro m ks v h
    exact insertKeys_fail_unchanged ks m v h
  · intro m line h
    cases line with
    | nil => rfl
    | cons c rest =>
      by_cases h1 : c = '#'
      · simp [Task2.insertEntryOfLine, h1]
      · by_cases h2 : c = ';'
        · simp [Task2.insertEntryOfLine, h1, h2]
        · by_cases h3 : c = '-'
          · have hb : Task2.insertEntryOfLine m (c :: rest)
                = Task2.insertEntryBody m rest true := by
              simp [Task2.insertEntryOfLine, h1, h2, h3]
            rw [hb] at h ⊢
            exact insertEntryBody_unchanged m rest true h
          · have hb : Task2.insertEntryOfLine m (c :: rest)
                = Task2.insertEntryBody m (c :: rest) false := by
              simp [Task2.insertEntryOfLine, h1, h2, h3]
            rw [hb] at h ⊢
            exact insertEntryBody_unchanged m (c :: rest) false h

/-- Witness for C10 at a concrete input: the line `a.b = 2` against a tree
where `a` is a leaf ends in an error and leaves the tree unchanged. -/
theorem c10_witness :
    (Task2.insertEntryOfLine (.cons (chars ("a")) (.str (chars ("1"))) .nil)
      (chars ("a.b = 2"))).1
    = .cons (chars ("a")) (.str (chars ("1"))) .nil :=
  c10_failing_line_leaves_tree_unchanged.2 _ _ (by decide)

end Sysctl
